import Mathlib

/-!
Shallow embedding of the DynamicTREX vectorized reachability core:
the `ProfileReachedIndexSIMD` class (SIMD-accelerated round-indexed
reachability index), the `SIMD16u` 16-lane vector type, and the
`aligned_allocator` size logic.  Byte lanes (`u_int8_t`) are modelled
as natural numbers; all values stored in a label vector are kept
below 256, which makes unsigned-byte `min`/`max` coincide with the
`Nat` operations.
-/

namespace TripBased

/-- One 128-bit register viewed as 16 unsigned byte lanes. -/
def Lanes : Type := Fin 16 → Nat

/-- Source `simd_set1_u8`: broadcast a scalar to all 16 byte lanes. -/
def simd_set1_u8 (val : Nat) : Lanes := fun _ => val

/-- Source `simd_max_u8`: lane-wise unsigned byte maximum. -/
def simd_max_u8 (a b : Lanes) : Lanes := fun i => max (a i) (b i)

/-- Source `simd_min_u8`: lane-wise unsigned byte minimum. -/
def simd_min_u8 (a b : Lanes) : Lanes := fun i => min (a i) (b i)

/-- Source `makeMask round`: bytes `0 .. round-2` are `0xFF`, the rest `0x00`.
(The NEON path builds this buffer directly; the x86 `MAX_MASKS[round-1]`
table holds the same byte patterns for rounds 1..15.) -/
def makeMask (round : Nat) : Lanes :=
  fun i => if (i : Nat) < round - 1 then 255 else 0

/-- The slice of the external timetable `Data` consumed by the index:
trip count, per-trip stop count, route membership, and the start of each
route's contiguous trip range. -/
structure Data where
  numberOfTrips : Nat
  numberOfStopsInTrip : Nat → Nat
  routeOfTrip : Nat → Nat
  firstTripOfRoute : Nat → Nat

/-- One past the last trip of the route containing `trip`:
`data.firstTripOfRoute[data.routeOfTrip[trip] + 1]`. -/
def routeEnd (data : Data) (trip : Nat) : Nat :=
  data.firstTripOfRoute (data.routeOfTrip trip + 1)

/-- The byte slot that round `round` occupies inside a label vector:
`values[round - 1]` in the source. -/
def slotOfRound (round : Nat) : Fin 16 :=
  ⟨(round - 1) % 16, Nat.mod_lt _ (by decide)⟩

/-- Read `labels[trip].values[round - 1]`. -/
def getPos (labels : Nat → Lanes) (trip round : Nat) : Nat :=
  labels trip (slotOfRound round)

/-- The constructor's default template: every byte of every trip's label
vector is filled with that trip's stop count (stored into a `u_int8_t`,
hence reduced mod 256). -/
def defaultLabels (data : Data) : Nat → Lanes :=
  fun trip _ => data.numberOfStopsInTrip trip % 256

/-- State of a `ProfileReachedIndexSIMD`: the timetable reference and the
per-trip label vectors. -/
structure ProfileReachedIndexSIMD where
  data : Data
  labels : Nat → Lanes

/-- Source `clear()`: reset the labels to the default template. -/
def clear (idx : ProfileReachedIndexSIMD) : ProfileReachedIndexSIMD :=
  { idx with labels := defaultLabels idx.data }

/-- Source `getPosition(trip, round)`: the stored byte for
`(trip, round)`.  The direct accessor `operator()` returns a reference to
the same byte. -/
def getPosition (idx : ProfileReachedIndexSIMD) (trip round : Nat) : Nat :=
  getPos idx.labels trip round

/-- Source `alreadyReached(trip, position, round)`: whether the stored
position is at most `position`. -/
def alreadyReached (idx : ProfileReachedIndexSIMD) (trip position round : Nat) :
    Bool :=
  decide (getPosition idx trip round ≤ position)

/-- The scan of `update`: starting at trip `tr` with `fuel` trips left
before the end of the route, while the current trip's stored value at
`round` is still worse than `position`, lane-min the trip's label vector
with `F` and move to the next trip. -/
def updateLoop (F : Lanes) (position round : Nat) :
    Nat → (Nat → Lanes) → Nat → Nat → Lanes
  | 0, labels, _ => labels
  | fuel + 1, labels, tr =>
      if position < getPos labels tr round then
        updateLoop F position round fuel
          (fun t => if t = tr then simd_min_u8 (labels t) F else labels t)
          (tr + 1)
      else labels

/-- Source `update(trip, position, round)`: build
`FILTER = simd_max_u8(set1(position), makeMask(round))` and run the
early-exiting lane-min scan from `trip` to the end of its route. -/
def update (idx : ProfileReachedIndexSIMD) (trip position round : Nat) :
    ProfileReachedIndexSIMD :=
  { idx with
    labels :=
      updateLoop (simd_max_u8 (simd_set1_u8 position) (makeMask round))
        position round (routeEnd idx.data trip - trip) idx.labels trip }

/-- The label states reachable by the outer search between two `clear()`
calls: the default template (right after `clear()`), closed under `update`
calls with a byte-valued position and a round in `[1,15]`. -/
inductive Reachable (data : Data) : (Nat → Lanes) → Prop where
  | cleared : Reachable data (defaultLabels data)
  | stepped (L : Nat → Lanes) (trip p r : Nat) :
      Reachable data L → p ≤ 255 → 1 ≤ r → r ≤ 15 →
      Reachable data (update ⟨data, L⟩ trip p r).labels

/-- Stated from the spec's words for the early-exit-equivalence claim:
apply the same lane-wise-minimum filter individually to every one of the
`n` trips starting at `t0`, with no early exit. -/
def applyFilterToAllTrips (F : Lanes) (labels : Nat → Lanes) (t0 n : Nat) :
    Nat → Lanes :=
  fun t => if t0 ≤ t ∧ t < t0 + n then simd_min_u8 (labels t) F else labels t

end TripBased

section Fixtures
open TripBased

/-- Concrete fixture from the spec's testable scenario: one route with
3 trips, each with 5 stops. -/
def dataC : Data where
  numberOfTrips := 3
  numberOfStopsInTrip := fun _ => 5
  routeOfTrip := fun _ => 0
  firstTripOfRoute := fun rt => if rt = 0 then 0 else 3

/-- The fixture index right after `clear()` (labels at the default
template). -/
def idxC : ProfileReachedIndexSIMD where
  data := dataC
  labels := defaultLabels dataC

end Fixtures

/-- The 16-lane unsigned 16-bit vector type of `SIMD16u`, lanes modelled
as natural numbers (all source operations relevant here keep lane values
below `2^16`, where unsigned-16-bit `min`/`max` coincide with `Nat`'s). -/
structure SIMD16u where
  arr : Fin 16 → Nat

namespace SIMD16u

/-- Source `minmask` (x86 method name `min`): compute the lane-wise minimum `m`
of the receiver `v` and operand `o`, compare `m` lane-wise for equality
with the old receiver (all-ones `0xFFFF` where equal), store `m` into the
receiver, and return the mask.  Modelled as the pair
(new receiver, returned mask). -/
def minmask (v o : SIMD16u) : SIMD16u × SIMD16u :=
  (⟨fun i => min (v.arr i) (o.arr i)⟩,
   ⟨fun i => if min (v.arr i) (o.arr i) = v.arr i then 65535 else 0⟩)

/-- Source `maxmask` (x86 method name `max`): lane-wise maximum analogue
of `minmask`. -/
def maxmask (v o : SIMD16u) : SIMD16u × SIMD16u :=
  (⟨fun i => max (v.arr i) (o.arr i)⟩,
   ⟨fun i => if max (v.arr i) (o.arr i) = v.arr i then 65535 else 0⟩)

end SIMD16u

namespace AlignedAllocator

/-- Source `aligned_allocator<T, Alignment>::max_size()`:
`(size_t(0) - size_t(1)) / sizeof(T)`, i.e. `(2^64 - 1) / sizeof(T)`
with `size_t` as a 64-bit unsigned integer. -/
def max_size (elementSize : Nat) : Nat := (2 ^ 64 - 1) / elementSize

/-- The rounded size computed by `allocate`:
`(total + Alignment - 1) & ~(Alignment - 1)` in `size_t` arithmetic
(`~(Alignment - 1) = 2^64 - Alignment` for a power-of-two `Alignment`). -/
def alignedTotal (total Alignment : Nat) : Nat :=
  ((total + Alignment - 1) % 2 ^ 64) &&& (2 ^ 64 - Alignment)

/-- Observable outcome of one `allocate(n)` call: the `NULL` return for
`n == 0`, the two failure signals, or success carrying the byte size that
was requested from the platform allocator. -/
inductive AllocOutcome where
  | nullPtr : AllocOutcome
  | lengthError : AllocOutcome
  | badAlloc : AllocOutcome
  | ok : Nat → AllocOutcome
deriving DecidableEq

/-- Source `allocate(n)` with the platform request abstracted:
`requestOf total`
is the byte count handed to the platform allocator and `platformOk` is an
oracle for whether the platform can satisfy that request. -/
def allocateWith (requestOf : Nat → Nat) (platformOk : Nat → Bool)
    (elementSize n : Nat) : AllocOutcome :=
  if n = 0 then AllocOutcome.nullPtr
  else if n > max_size elementSize then AllocOutcome.lengthError
  else if platformOk (requestOf (n * elementSize)) then
    AllocOutcome.ok (requestOf (n * elementSize))
  else AllocOutcome.badAlloc

/-- The aarch64/arm branch of `allocate`: the request passed to
`std::aligned_alloc` is the rounded `aligned_total`. -/
def allocateAarch64 (platformOk : Nat → Bool)
    (elementSize Alignment n : Nat) : AllocOutcome :=
  allocateWith (fun total => alignedTotal total Alignment) platformOk
    elementSize n

/-- The x86 branch of `allocate`: `aligned_total` is discarded
(`(void)aligned_total;`) and the unrounded `total` is passed to
`_mm_malloc`. -/
def allocateX86 (platformOk : Nat → Bool) (elementSize n : Nat) :
    AllocOutcome :=
  allocateWith (fun total => total) platformOk elementSize n

end AlignedAllocator

namespace TripBased

lemma slotOfRound_val (r : Nat) (h : r ≤ 16) : (slotOfRound r : Nat) = r - 1 := by
  simp only [slotOfRound]
  omega

lemma updateLoop_lt (F : Lanes) (p r : Nat) :
    ∀ (fuel : Nat) (labels : Nat → Lanes) (tr t : Nat), t < tr →
      updateLoop F p r fuel labels tr t = labels t := by
  intro fuel
  induction fuel with
  | zero => intro labels tr t _; rfl
  | succ n ih =>
      intro labels tr t ht
      simp only [updateLoop]
      split
      · rw [ih _ (tr + 1) t (Nat.lt_succ_of_lt ht)]
        simp [Nat.ne_of_lt ht]
      · rfl

lemma updateLoop_le (F : Lanes) (p r : Nat) :
    ∀ (fuel : Nat) (labels : Nat → Lanes) (tr t : Nat) (i : Fin 16),
      updateLoop F p r fuel labels tr t i ≤ labels t i := by
  intro fuel
  induction fuel with
  | zero => intro labels tr t i; exact Nat.le_refl _
  | succ n ih =>
      intro labels tr t i
      simp only [updateLoop]
      split
      · refine Nat.le_trans (ih _ (tr + 1) t i) ?_
        by_cases h : t = tr
        · subst h; simp [simd_min_u8]
        · simp [h]
      · exact Nat.le_refl _

lemma updateLoop_head (F : Lanes) (p r fuel : Nat) (labels : Nat → Lanes)
    (tr : Nat) :
    updateLoop F p r (fuel + 1) labels tr tr =
      if p < getPos labels tr r then simd_min_u8 (labels tr) F
      else labels tr := by
  simp only [updateLoop]
  split
  · rw [updateLoop_lt F p r fuel _ (tr + 1) tr (Nat.lt_succ_self tr)]
    simp
  · rfl

end TripBased

open TripBased

/-- C3: an `update` call never increases any stored byte of any trip:
every lane of every label vector after the call is at most its value
before the call.  (Monotone relaxation between two `clear()` calls.) -/
theorem update_never_increases (idx : ProfileReachedIndexSIMD)
    (trip p r t : Nat) (i : Fin 16) :
    (update idx trip p r).labels t i ≤ idx.labels t i :=
  updateLoop_le _ p r _ idx.labels trip t i

/-- C10: if the stored position of `(trip, round)` is already at most
`position`, the scan of `update` exits before its first iteration and the
whole index is left unchanged. -/
theorem update_noop_of_reached (idx : ProfileReachedIndexSIMD)
    (t p r : Nat) (h : getPosition idx t r ≤ p) :
    update idx t p r = idx := by
  have hcond : ¬ p < getPos idx.labels t r := Nat.not_lt.2 h
  simp only [update]
  cases hfuel : routeEnd idx.data t - t with
  | zero => rfl
  | succ n =>
      simp only [updateLoop, hcond, if_false]

/-- C10 witness: with the three-trip/five-stop fixture, an update at an
already-reached position is the identity. -/
theorem update_noop_of_reached_witness : update idxC 0 5 1 = idxC :=
  update_noop_of_reached idxC 0 5 1 (by decide)

/-- C4: after `clear()`, every `(trip, round)` stored position equals the
trip's stop count (the sentinel), so `alreadyReached` is false for every
position strictly below the stop count. -/
theorem clear_resets_to_stopCount (idx : ProfileReachedIndexSIMD)
    (t p r : Nat) (_hr1 : 1 ≤ r) (_hr15 : r ≤ 15)
    (hs : idx.data.numberOfStopsInTrip t < 256) :
    getPosition (clear idx) t r = idx.data.numberOfStopsInTrip t
    ∧ (p < idx.data.numberOfStopsInTrip t →
        alreadyReached (clear idx) t p r = false) := by
  have h1 : getPosition (clear idx) t r = idx.data.numberOfStopsInTrip t := by
    simp only [getPosition, clear, getPos, defaultLabels]
    exact Nat.mod_eq_of_lt hs
  refine ⟨h1, fun hp => ?_⟩
  simp only [alreadyReached, h1, decide_eq_false_iff_not, Nat.not_le]
  exact hp

/-- C4 witness: in the three-trip/five-stop fixture, after `clear()` the
stored position of trip 0 at round 1 is 5 and position 4 is not reached. -/
theorem clear_resets_to_stopCount_witness :
    getPosition (clear idxC) 0 1 = 5
    ∧ alreadyReached (clear idxC) 0 4 1 = false :=
  ⟨(clear_resets_to_stopCount idxC 0 4 1 (by decide) (by decide) (by decide)).1,
   (clear_resets_to_stopCount idxC 0 4 1 (by decide) (by decide)
      (by decide)).2 (by decide)⟩

/-- C1: for a valid trip of its route, a byte-valued position, and a round
in `[1,15]`, on a label vector whose bytes fit in a `u_int8_t` and are
non-increasing across slots, `update(t, p, r)` makes
`alreadyReached(t, p, r')` true for every round `r' ∈ [r, 15]` and leaves
the stored positions of trip `t` at every round below `r` unchanged. -/
theorem update_propagates (idx : ProfileReachedIndexSIMD) (t p r : Nat)
    (ht : t < routeEnd idx.data t) (hp : p ≤ 255)
    (hr1 : 1 ≤ r) (hr15 : r ≤ 15)
    (hb : ∀ i : Fin 16, idx.labels t i ≤ 255)
    (hm : ∀ i j : Fin 16, i ≤ j → idx.labels t j ≤ idx.labels t i) :
    (∀ r', r ≤ r' → r' ≤ 15 →
        alreadyReached (update idx t p r) t p r' = true)
    ∧ (∀ r'', 1 ≤ r'' → r'' < r →
        getPosition (update idx t p r) t r'' = getPosition idx t r'') := by
  obtain ⟨fuel, hfuel⟩ : ∃ f, routeEnd idx.data t - t = f + 1 :=
    ⟨routeEnd idx.data t - t - 1, by omega⟩
  have hhead : (update idx t p r).labels t =
      if p < getPos idx.labels t r then
        simd_min_u8 (idx.labels t)
          (simd_max_u8 (simd_set1_u8 p) (makeMask r))
      else idx.labels t := by
    simp only [update, hfuel]
    exact updateLoop_head _ p r fuel idx.labels t
  constructor
  · intro r' h1 h2
    have hsr : (slotOfRound r' : Nat) = r' - 1 := slotOfRound_val r' (by omega)
    have hgoal : getPos (update idx t p r).labels t r' ≤ p := by
      rw [getPos, hhead]
      split
      · simp only [simd_min_u8, simd_max_u8, simd_set1_u8, makeMask]
        have hmask : ¬ ((slotOfRound r' : Nat) < r - 1) := by omega
        simp only [hmask, if_false]
        exact Nat.le_trans (Nat.min_le_right _ _)
          (Nat.le_of_eq (Nat.max_eq_left (Nat.zero_le p)))
      · rename_i hstop
        have hle : idx.labels t (slotOfRound r') ≤
            idx.labels t (slotOfRound r) := by
          apply hm
          have hsr0 : (slotOfRound r : Nat) = r - 1 :=
            slotOfRound_val r (by omega)
          simp only [Fin.le_def, hsr, hsr0]
          omega
        exact Nat.le_trans hle (Nat.not_lt.1 hstop)
    simpa [alreadyReached, getPosition] using hgoal
  · intro r'' h1 h2
    have hsr : (slotOfRound r'' : Nat) = r'' - 1 :=
      slotOfRound_val r'' (by omega)
    simp only [getPosition, getPos, hhead]
    split
    · simp only [simd_min_u8, simd_max_u8, simd_set1_u8, makeMask]
      have hmask : (slotOfRound r'' : Nat) < r - 1 := by omega
      simp only [hmask, if_true]
      rw [Nat.max_eq_right hp]
      exact Nat.min_eq_left (hb _)
    · rfl

/-- C1 witness: in the fixture, `update(t0, 2, 3)` makes position 2
reached at round 5 and leaves round 1 at the sentinel 5. -/
theorem update_propagates_witness :
    alreadyReached (update idxC 0 2 3) 0 2 5 = true
    ∧ getPosition (update idxC 0 2 3) 0 1 = 5 :=
  ⟨(update_propagates idxC 0 2 3 (by decide) (by decide) (by decide)
      (by decide) (by decide) (by decide)).1 5 (by decide) (by decide),
   (update_propagates idxC 0 2 3 (by decide) (by decide) (by decide)
      (by decide) (by decide) (by decide)).2 1 (by decide) (by decide)⟩

namespace TripBased

lemma FILTER_mono (p r : Nat) :
    ∀ i j : Fin 16, i ≤ j →
      simd_max_u8 (simd_set1_u8 p) (makeMask r) j ≤
        simd_max_u8 (simd_set1_u8 p) (makeMask r) i := by
  intro i j hij
  simp only [simd_max_u8, simd_set1_u8, makeMask]
  apply max_le_max (le_refl p)
  by_cases hj : (j : Nat) < r - 1
  · have hi : (i : Nat) < r - 1 := lt_of_le_of_lt (Fin.le_def.mp hij) hj
    simp [hj, hi]
  · simp [hj]

lemma updateLoop_mono (F : Lanes) (p r : Nat)
    (hF : ∀ i j : Fin 16, i ≤ j → F j ≤ F i) :
    ∀ (fuel : Nat) (labels : Nat → Lanes) (tr : Nat),
      (∀ t (i j : Fin 16), i ≤ j → labels t j ≤ labels t i) →
      ∀ t (i j : Fin 16), i ≤ j →
        updateLoop F p r fuel labels tr t j ≤
          updateLoop F p r fuel labels tr t i := by
  intro fuel
  induction fuel with
  | zero => intro labels tr h t i j hij; exact h t i j hij
  | succ n ih =>
      intro labels tr h t i j hij
      simp only [updateLoop]
      split
      · refine ih _ (tr + 1) ?_ t i j hij
        intro t' i' j' hij'
        by_cases ht' : t' = tr
        · simp only [ht', if_pos rfl, simd_min_u8]
          exact min_le_min (h tr i' j' hij') (hF i' j' hij')
        · simp only [if_neg ht']
          exact h t' i' j' hij'
      · exact h t i j hij

lemma reachable_byte_bounded (data : Data) (L : Nat → Lanes)
    (h : Reachable data L) : ∀ t (i : Fin 16), L t i ≤ 255 := by
  induction h with
  | cleared =>
      intro t i
      exact Nat.lt_succ_iff.mp (Nat.mod_lt _ (by decide))
  | stepped L trip p r hreach hp h1 h15 ih =>
      intro t i
      simp only [update]
      exact Nat.le_trans (updateLoop_le _ p r _ L trip t i) (ih t i)

lemma reachable_pair_mono (data : Data) (L : Nat → Lanes)
    (h : Reachable data L) :
    ∀ t (i j : Fin 16), i ≤ j → L t j ≤ L t i := by
  induction h with
  | cleared => intro t i j _; exact le_refl _
  | stepped L trip p r hreach hp h1 h15 ih =>
      intro t i j hij
      exact updateLoop_mono _ p r (FILTER_mono p r) _ L trip ih t i j hij

end TripBased

/-- C9: in every state reachable from `clear()` by any sequence of
`update` calls, the stored positions of each trip are non-increasing
across rounds: the value at round `r + 1` is at most the value at round
`r` for every `r` in `[1,14]`. -/
theorem reachable_round_monotone (data : Data) (L : Nat → Lanes)
    (h : Reachable data L) :
    ∀ t r, 1 ≤ r → r ≤ 14 → getPos L t (r + 1) ≤ getPos L t r := by
  intro t r h1 h14
  apply reachable_pair_mono data L h
  rw [Fin.le_def, slotOfRound_val r (by omega), slotOfRound_val (r + 1) (by omega)]
  omega

/-- C9 witness: the invariant instantiated right after `clear()` in the
three-trip fixture, at trip 0 and round 1. -/
theorem reachable_round_monotone_witness :
    getPos (defaultLabels dataC) 0 2 ≤ getPos (defaultLabels dataC) 0 1 :=
  reachable_round_monotone dataC (defaultLabels dataC) Reachable.cleared
    0 1 (by decide) (by decide)

/-- C5 counterexample: slot 0 is not unused — the round-1 update
`update(t0, 2, 1)` overwrites byte slot 0 of trip 0 (from the sentinel 5
to 2), and the round-1 accessor reads exactly that slot. -/
theorem slot_zero_unused_counterexample :
    idxC.labels 0 (0 : Fin 16) = 5
    ∧ (update idxC 0 2 1).labels 0 (0 : Fin 16) = 2
    ∧ getPosition (update idxC 0 2 1) 0 1 = 2 := by
  decide

/-- C5 amended: round `r ∈ [1,15]` reads and writes byte slot `r - 1`
(not a slot numbered by the round itself); the spare slot is slot 15,
which no accessor with a valid round ever reads, and distinct rounds use
distinct slots. -/
theorem slot_of_round_mapping (idx : ProfileReachedIndexSIMD) (t r q : Nat)
    (hr1 : 1 ≤ r) (hr15 : r ≤ 15) (hq1 : 1 ≤ q) (hq15 : q ≤ 15) :
    getPosition idx t r = idx.labels t (slotOfRound r)
    ∧ (slotOfRound r : Nat) = r - 1
    ∧ slotOfRound r ≠ (15 : Fin 16)
    ∧ (slotOfRound r = slotOfRound q → r = q) := by
  have hr := slotOfRound_val r (by omega)
  have hq := slotOfRound_val q (by omega)
  refine ⟨rfl, hr, fun hc => ?_, fun he => ?_⟩
  · have h15 : (slotOfRound r : Nat) = 15 := by rw [hc]; rfl
    omega
  · have heq : (slotOfRound r : Nat) = (slotOfRound q : Nat) := by rw [he]
    omega

/-- C5 amended witness: round 1 uses slot 0 (which differs from slot 15
and from round 2's slot) in the concrete fixture. -/
theorem slot_of_round_mapping_witness :
    getPosition idxC 0 1 = idxC.labels 0 (slotOfRound 1)
    ∧ (slotOfRound 1 : Nat) = 0
    ∧ slotOfRound 1 ≠ (15 : Fin 16)
    ∧ (slotOfRound 1 = slotOfRound 2 → 1 = 2) :=
  slot_of_round_mapping idxC 0 1 2 (by decide) (by decide) (by decide)
    (by decide)

/-- C6: `minmask` sets every lane of the receiver to the lane-wise
minimum and returns a mask whose lane is all-ones (`0xFFFF`) exactly when
the receiver's lane was already at the extreme (`v_i ≤ o_i`) and all-zeros
otherwise; `maxmask` satisfies the dual property. -/
theorem simd16u_minmask_maxmask (v o : SIMD16u) (i : Fin 16) :
    ((v.minmask o).1.arr i = min (v.arr i) (o.arr i)
      ∧ ((v.minmask o).2.arr i = 65535 ↔ v.arr i ≤ o.arr i)
      ∧ ((v.minmask o).2.arr i = 0 ↔ ¬ v.arr i ≤ o.arr i))
    ∧ ((v.maxmask o).1.arr i = max (v.arr i) (o.arr i)
      ∧ ((v.maxmask o).2.arr i = 65535 ↔ o.arr i ≤ v.arr i)
      ∧ ((v.maxmask o).2.arr i = 0 ↔ ¬ o.arr i ≤ v.arr i)) := by
  have hmin : (min (v.arr i) (o.arr i) = v.arr i) ↔ v.arr i ≤ o.arr i :=
    min_eq_left_iff
  have hmax : (max (v.arr i) (o.arr i) = v.arr i) ↔ o.arr i ≤ v.arr i :=
    max_eq_left_iff
  refine ⟨⟨rfl, ?_, ?_⟩, rfl, ?_, ?_⟩ <;>
    simp only [SIMD16u.minmask, SIMD16u.maxmask] <;> split <;> simp_all

namespace TripBased

lemma across_chain (labels : Nat → Lanes) (t0 n : Nat)
    (ha : ∀ t, t0 ≤ t → t + 1 < t0 + n →
      ∀ i : Fin 16, labels (t + 1) i ≤ labels t i) :
    ∀ t, t0 ≤ t → t < t0 + n → ∀ i : Fin 16, labels t i ≤ labels t0 i := by
  intro t ht1 ht2 i
  obtain ⟨d, rfl⟩ : ∃ d, t = t0 + d := ⟨t - t0, by omega⟩
  clear ht1
  induction d with
  | zero => exact le_refl _
  | succ m ih =>
      have h1 : t0 + m + 1 < t0 + n := ht2
      calc labels (t0 + (m + 1)) i = labels (t0 + m + 1) i := rfl
        _ ≤ labels (t0 + m) i := ha (t0 + m) (by omega) h1 i
        _ ≤ labels t0 i := ih (by omega)

lemma updateLoop_eq_full (p r : Nat) (hp : p ≤ 255) (hr1 : 1 ≤ r)
    (hr15 : r ≤ 15) :
    ∀ (n : Nat) (labels : Nat → Lanes) (t0 : Nat),
      (∀ t, t0 ≤ t → t < t0 + n → ∀ i : Fin 16, labels t i ≤ 255) →
      (∀ t, t0 ≤ t → t < t0 + n →
        ∀ i j : Fin 16, i ≤ j → labels t j ≤ labels t i) →
      (∀ t, t0 ≤ t → t + 1 < t0 + n →
        ∀ i : Fin 16, labels (t + 1) i ≤ labels t i) →
      updateLoop (simd_max_u8 (simd_set1_u8 p) (makeMask r)) p r n labels t0 =
        applyFilterToAllTrips (simd_max_u8 (simd_set1_u8 p) (makeMask r))
          labels t0 n := by
  intro n
  induction n with
  | zero =>
      intro labels t0 _ _ _
      funext t
      simp only [updateLoop, applyFilterToAllTrips]
      have hf : ¬ (t0 ≤ t ∧ t < t0 + 0) := by omega
      rw [if_neg hf]
  | succ m ih =>
      intro labels t0 hb hw ha
      simp only [updateLoop]
      split
      · rename_i hcond
        rw [ih (fun t => if t = t0 then
              simd_min_u8 (labels t)
                (simd_max_u8 (simd_set1_u8 p) (makeMask r))
              else labels t) (t0 + 1) ?_ ?_ ?_]
        · funext t
          simp only [applyFilterToAllTrips]
          by_cases h0 : t = t0
          · have hc1 : ¬ (t0 + 1 ≤ t ∧ t < t0 + 1 + m) := by omega
            have hc2 : t0 ≤ t ∧ t < t0 + (m + 1) := by omega
            rw [if_neg hc1, if_pos hc2, if_pos h0, h0]
          · by_cases h1 : t0 + 1 ≤ t ∧ t < t0 + 1 + m
            · have hc2 : t0 ≤ t ∧ t < t0 + (m + 1) := by omega
              rw [if_pos h1, if_pos hc2, if_neg h0]
            · have hc2 : ¬ (t0 ≤ t ∧ t < t0 + (m + 1)) := by omega
              rw [if_neg h1, if_neg hc2, if_neg h0]
        · intro t ht1 ht2 i
          simp only [if_neg (by omega : ¬ t = t0)]
          exact hb t (by omega) (by omega) i
        · intro t ht1 ht2 i j hij
          simp only [if_neg (by omega : ¬ t = t0)]
          exact hw t (by omega) (by omega) i j hij
        · intro t ht1 ht2 i
          simp only [if_neg (by omega : ¬ t + 1 = t0),
            if_neg (by omega : ¬ t = t0)]
          exact ha t (by omega) (by omega) i
      · rename_i hcond
        have hstop : getPos labels t0 r ≤ p := Nat.not_lt.1 hcond
        funext t
        simp only [applyFilterToAllTrips]
        by_cases hin : t0 ≤ t ∧ t < t0 + (m + 1)
        · rw [if_pos hin]
          funext i
          simp only [simd_min_u8]
          refine (Nat.min_eq_left ?_).symm
          simp only [simd_max_u8, simd_set1_u8, makeMask]
          by_cases hmask : (i : Nat) < r - 1
          · rw [if_pos hmask, Nat.max_eq_right hp]
            exact hb t hin.1 hin.2 i
          · rw [if_neg hmask, Nat.max_eq_left (Nat.zero_le p)]
            have hsr : (slotOfRound r : Nat) = r - 1 :=
              slotOfRound_val r (by omega)
            have step1 : labels t i ≤ labels t (slotOfRound r) :=
              hw t hin.1 hin.2 (slotOfRound r) i
                (by rw [Fin.le_def, hsr]; omega)
            have step2 : labels t (slotOfRound r) ≤
                labels t0 (slotOfRound r) :=
              across_chain labels t0 (m + 1) ha t hin.1 hin.2 (slotOfRound r)
            exact le_trans step1 (le_trans step2 hstop)
        · rw [if_neg hin]

end TripBased

/-- C2: for a route whose trips start at `t0`, when the stored label
vectors of the route's trips are byte-valued, non-increasing across slots
within each trip, and lane-wise non-increasing from each trip to the next
(the route ordering property the spec states), `update(t0, p, r)` yields
exactly the stored values of applying the same lane-wise-minimum filter
individually to every trip of the route with no early exit. -/
theorem update_earlyExit_equiv (idx : ProfileReachedIndexSIMD) (t0 p r : Nat)
    (hp : p ≤ 255) (hr1 : 1 ≤ r) (hr15 : r ≤ 15)
    (hb : ∀ t, t0 ≤ t → t < routeEnd idx.data t0 →
      ∀ i : Fin 16, idx.labels t i ≤ 255)
    (hw : ∀ t, t0 ≤ t → t < routeEnd idx.data t0 →
      ∀ i j : Fin 16, i ≤ j → idx.labels t j ≤ idx.labels t i)
    (ha : ∀ t, t0 ≤ t → t + 1 < routeEnd idx.data t0 →
      ∀ i : Fin 16, idx.labels (t + 1) i ≤ idx.labels t i) :
    (update idx t0 p r).labels =
      applyFilterToAllTrips (simd_max_u8 (simd_set1_u8 p) (makeMask r))
        idx.labels t0 (routeEnd idx.data t0 - t0) := by
  simp only [update]
  apply updateLoop_eq_full p r hp hr1 hr15
  · intro t h1 h2 i
    exact hb t h1 (by omega) i
  · intro t h1 h2 i j hij
    exact hw t h1 (by omega) i j hij
  · intro t h1 h2 i
    exact ha t h1 (by omega) i

/-- C2 witness: the equivalence instantiated on the three-trip fixture
right after `clear()`, for `update(t0, 2, 1)`. -/
theorem update_earlyExit_equiv_witness :
    (update idxC 0 2 1).labels =
      applyFilterToAllTrips (simd_max_u8 (simd_set1_u8 2) (makeMask 1))
        idxC.labels 0 (routeEnd idxC.data 0 - 0) :=
  update_earlyExit_equiv idxC 0 2 1 (by decide) (by decide) (by decide)
    (fun t _ _ i => (by decide : (5 : Nat) % 256 ≤ 255))
    (fun t _ _ i j _ => Nat.le_refl _)
    (fun t _ _ i => Nat.le_refl _)

namespace AlignedAllocator

lemma land_two_pow_sub (m k n : Nat) (hk : k ≤ n) (hm : m < 2 ^ n) :
    m &&& (2 ^ n - 2 ^ k) = m / 2 ^ k * 2 ^ k := by
  have hmask : 2 ^ n - 2 ^ k = 2 ^ k * (2 ^ (n - k) - 1) := by
    rw [Nat.mul_sub_left_distrib, Nat.mul_one, ← Nat.pow_add]
    congr 2
    omega
  apply Nat.eq_of_testBit_eq
  intro i
  rw [Nat.testBit_land, hmask, Nat.testBit_mul_pow_two,
    Nat.testBit_two_pow_sub_one,
    (Nat.mul_comm (m / 2 ^ k) (2 ^ k) :
      m / 2 ^ k * 2 ^ k = 2 ^ k * (m / 2 ^ k)),
    Nat.testBit_mul_pow_two]
  by_cases hik : k ≤ i
  · by_cases hin : i < n
    · have h1 : i - k < n - k := by omega
      have h2 : Nat.testBit (m / 2 ^ k) (i - k) = Nat.testBit m i := by
        rw [← Nat.shiftRight_eq_div_pow, Nat.testBit_shiftRight]
        congr 1
        omega
      simp [hik, h1, h2]
    · have hle : 2 ^ n ≤ 2 ^ i :=
        Nat.pow_le_pow_right (by decide) (Nat.le_of_not_lt hin)
      have h1 : Nat.testBit m i = false :=
        Nat.testBit_lt_two_pow (Nat.lt_of_lt_of_le hm hle)
      have h2 : Nat.testBit (m / 2 ^ k) (i - k) = false := by
        rw [← Nat.shiftRight_eq_div_pow, Nat.testBit_shiftRight]
        exact Nat.testBit_lt_two_pow
          (Nat.lt_of_lt_of_le hm
            (Nat.pow_le_pow_right (by decide) (by omega)))
      simp [h1, h2]
  · simp [hik]

lemma alignedTotal_spec (total A k : Nat) (hA : A = 2 ^ k) (hk : k ≤ 64)
    (hov : total + A - 1 < 2 ^ 64) :
    A ∣ alignedTotal total A ∧ total ≤ alignedTotal total A
      ∧ alignedTotal total A < total + A := by
  subst hA
  have h1 : (0 : Nat) < 2 ^ k := Nat.two_pow_pos k
  have hmod : (total + 2 ^ k - 1) % 2 ^ 64 = total + 2 ^ k - 1 :=
    Nat.mod_eq_of_lt hov
  have hland : alignedTotal total (2 ^ k) =
      (total + 2 ^ k - 1) / 2 ^ k * 2 ^ k := by
    rw [alignedTotal, hmod]
    exact land_two_pow_sub _ k 64 hk hov
  rw [hland]
  have key : (total + 2 ^ k - 1) / 2 ^ k * 2 ^ k
      + (total + 2 ^ k - 1) % 2 ^ k = total + 2 ^ k - 1 :=
    Nat.div_add_mod' _ _
  have hblt : (total + 2 ^ k - 1) % 2 ^ k < 2 ^ k := Nat.mod_lt _ h1
  refine ⟨dvd_mul_left _ _, ?_, ?_⟩ <;> omega

end AlignedAllocator

open AlignedAllocator

/-- C7 counterexample: on the x86 branch of `allocate`, the computed
rounded size is discarded and the unrounded byte count is what reaches
the platform allocator — with element size 1, alignment 16 and `n = 5`,
the request is 5 bytes, not a multiple of 16. -/
theorem allocate_x86_unrounded_counterexample :
    allocateX86 (fun _ => true) 1 5 = AllocOutcome.ok 5 ∧ ¬ (16 ∣ 5) := by
  constructor
  · rfl
  · decide

/-- C7 amended: on the `std::aligned_alloc` (aarch64/arm) branch, for a
power-of-two alignment and no `size_t` wraparound in `total + A - 1`, a
successful `allocate(n)` requested from the platform a byte count that is
a multiple of the alignment, at least `n * elementSize`, and below
`n * elementSize + A`; the x86 `_mm_malloc` branch passes the unrounded
byte count instead. -/
theorem allocateAarch64_rounds_up (platformOk : Nat → Bool)
    (s A k n req : Nat) (hA : A = 2 ^ k) (hk : k ≤ 64)
    (hov : n * s + A - 1 < 2 ^ 64)
    (h : allocateAarch64 platformOk s A n = AllocOutcome.ok req) :
    A ∣ req ∧ n * s ≤ req ∧ req < n * s + A := by
  have hreq : req = alignedTotal (n * s) A := by
    simp only [allocateAarch64, allocateWith] at h
    split at h
    · exact absurd h (by simp)
    · split at h
      · exact absurd h (by simp)
      · split at h
        · exact (AllocOutcome.ok.injEq _ _ ▸ congrArg id h).symm ▸ rfl
        · exact absurd h (by simp)
  rw [hreq]
  exact alignedTotal_spec (n * s) A k hA hk hov

/-- C7 amended witness: element size 1, alignment `16 = 2^4`, `n = 5`;
the platform request is 16 bytes. -/
theorem allocateAarch64_rounds_up_witness :
    (16 : Nat) ∣ 16 ∧ 5 * 1 ≤ 16 ∧ 16 < 5 * 1 + 16 :=
  allocateAarch64_rounds_up (fun _ => true) 1 16 4 5 16 (by decide)
    (by decide) (by decide) (by decide)

/-- C8: `allocate` signals the length violation exactly when
`n * elementSize` exceeds the largest `size_t` value (`n` exceeds
`max_size`), signals out-of-memory exactly when the platform allocator
declines the request of a non-zero, non-overflowing size, and returns the
empty `NULL` allocation for `n = 0` without raising either error. -/
theorem allocate_error_spec (requestOf : Nat → Nat) (platformOk : Nat → Bool)
    (s n : Nat) (hs : 0 < s) :
    (allocateWith requestOf platformOk s 0 = AllocOutcome.nullPtr)
    ∧ (allocateWith requestOf platformOk s n = AllocOutcome.lengthError ↔
        2 ^ 64 - 1 < n * s)
    ∧ (allocateWith requestOf platformOk s n = AllocOutcome.badAlloc ↔
        (n ≠ 0 ∧ n * s ≤ 2 ^ 64 - 1
          ∧ platformOk (requestOf (n * s)) = false)) := by
  have hiff : max_size s < n ↔ 2 ^ 64 - 1 < n * s := by
    rw [max_size, Nat.div_lt_iff_lt_mul hs, Nat.mul_comm]
  refine ⟨by simp [allocateWith], ?_, ?_⟩
  · by_cases h0 : n = 0
    · subst h0
      simp only [allocateWith, if_pos rfl]
      constructor
      · intro hc
        exact absurd hc (by simp)
      · intro hc
        exact absurd hc (by simp [hs])
    · by_cases hlen : max_size s < n
      · have hyes := hiff.mp hlen
        simp only [allocateWith, if_neg h0, gt_iff_lt, if_pos hlen]
        constructor
        · intro _
          omega
        · intro _
          trivial
      · have hno : ¬ 2 ^ 64 - 1 < n * s := fun hc => hlen (hiff.mpr hc)
        by_cases hpl : platformOk (requestOf (n * s)) = true
          <;> simp [allocateWith, h0, hlen, hpl]
          <;> omega
  · by_cases h0 : n = 0
    · subst h0
      simp [allocateWith]
    · by_cases hlen : max_size s < n
      · have hyes : 2 ^ 64 - 1 < n * s := hiff.mp hlen
        simp only [allocateWith, if_neg h0, gt_iff_lt, if_pos hlen]
        constructor
        · intro hc
          exact absurd hc (by simp)
        · intro hc
          omega
      · have hno : n * s ≤ 2 ^ 64 - 1 :=
          Nat.not_lt.1 fun hc => hlen (hiff.mpr hc)
        by_cases hpl : platformOk (requestOf (n * s)) = true
          <;> simp [allocateWith, h0, hlen, hpl]
          <;> omega

/-- C8 witness: element size 1, a platform that always declines, `n = 3`:
`n = 0` yields `NULL`, no length violation is signalled, and the decline
surfaces as the out-of-memory failure. -/
theorem allocate_error_spec_witness :
    allocateWith (fun total => total) (fun _ => false) 1 0 =
      AllocOutcome.nullPtr
    ∧ (allocateWith (fun total => total) (fun _ => false) 1 3 =
        AllocOutcome.lengthError ↔ 2 ^ 64 - 1 < 3 * 1)
    ∧ (allocateWith (fun total => total) (fun _ => false) 1 3 =
        AllocOutcome.badAlloc ↔
        (3 ≠ 0 ∧ 3 * 1 ≤ 2 ^ 64 - 1 ∧ (false : Bool) = false)) :=
  allocate_error_spec (fun total => total) (fun _ => false) 1 3 (by decide)
